import Mathlib

/-!
Shallow embedding of the CaproneISIS index builder ingestion pipeline
(`src/caproneisis/builder.py`): the `add_jsonl_files` method with its inner
generator `generate_actions`, the progress store (`_load_progress` /
`_save_progress`), the glob-based file discovery, and the statistics
computation.  Parsed JSON values are abstracted by a type parameter `α`;
an extractor is a function `α → Option ExtractedRecord`, matching the
`RecordExtractor` alias (builder.py:32) — in particular `default_extractor`
(builder.py:35-64) wraps its whole body in `try/except` and turns every
internal failure into `None`, so it is such a function.
-/

/-- Normalized record produced by an extractor: the 5-tuple
`(id, title, content, year, prefix)` of the `RecordExtractor` alias
(builder.py:32).  The last source field name is a Lean keyword and is
rendered `pfx`. -/
structure ExtractedRecord where
  id : String
  title : String
  content : String
  year : String
  pfx : String
deriving DecidableEq

/-- One Elasticsearch bulk action as built at builder.py:238-248:
`_index` is the target index name, `_id` is `extracted[0]`, and `_source`
carries the five record fields (its `id` entry equals `docId`). -/
structure WriteOperation where
  index : String
  docId : String
  src : ExtractedRecord
deriving DecidableEq

/-- One line of a JSONL file as seen by the generator loop
(builder.py:231-234): either `json.loads` raises `JSONDecodeError`
(`malformed`), or it yields a parsed JSON value (`parsed`). -/
inductive Line (α : Type) where
  | malformed : Line α
  | parsed : α → Line α
deriving DecidableEq

/-- A source file: its path, the lines readable from it in order, and
whether reading raises a fatal I/O error after those lines
(builder.py:229-231 and the handler at builder.py:268-271).  A file that
cannot even be opened has `lines = []` and `ioError = true`. -/
structure JFile (α : Type) where
  path : String
  lines : List (Line α)
  ioError : Bool
deriving DecidableEq

/-- Configuration of one `add_jsonl_files` invocation together with the
builder fields the generator reads (builder.py:182-189, 110-113). -/
structure Config (α : Type) where
  index_name : String
  extractor : α → Option ExtractedRecord
  test_limit : Option Int
  resume : Bool
  progress_interval : Nat

/-- State of the generator closure: the `total_records` and `total_errors`
counters, `self._processed_files`, the actions yielded so far in order,
and the `total_records` values at which a progress line was printed
(builder.py:214-216, 137-138, 250-259). -/
structure GenState where
  total_records : Nat
  total_errors : Nat
  processed_files : Finset String
  actions : List WriteOperation
  reports : List Nat
deriving DecidableEq

/-- Generator state at the start of `add_jsonl_files`: zero counters and
the processed-file set loaded at builder construction
(builder.py:137-140, 214-216). -/
def initState (loaded : Finset String) : GenState :=
  { total_records := 0
    total_errors := 0
    processed_files := loaded
    actions := []
    reports := [] }

/-- The test-limit check `if test_limit and total_records >= test_limit`
(builder.py:262): by Python truthiness, `test_limit = None` and
`test_limit = 0` both disable the limit. -/
def limitHit (test_limit : Option Int) (n : Nat) : Bool :=
  match test_limit with
  | none => false
  | some k => !(k == 0) && decide (k ≤ (n : Int))

/-- The bulk action dict built for one extracted record
(builder.py:238-248). -/
def mkAction (index_name : String) (r : ExtractedRecord) : WriteOperation :=
  { index := index_name, docId := r.id, src := r }

/-- The per-line loop of `generate_actions` over the lines of one open
file (builder.py:231-266).  A malformed line increments `total_errors`
and continues; a parsed line goes through the extractor; `None` from the
extractor yields nothing; an extracted record increments `total_records`,
yields one action, appends a progress report when the counter crosses the
interval (builder.py:251), and then checks the test limit
(builder.py:262-263).  The returned flag is `true` when the generator
executed `return` because the limit was reached.  (With
`progress_interval = 0` the source raises `ZeroDivisionError` at the `%`;
the model never reports in that case, and no theorem uses interval 0.) -/
def runLines (cfg : Config α) : List (Line α) → GenState → GenState × Bool
  | [], s => (s, false)
  | Line.malformed :: rest, s =>
      runLines cfg rest { s with total_errors := s.total_errors + 1 }
  | Line.parsed a :: rest, s =>
      match cfg.extractor a with
      | none => runLines cfg rest s
      | some r =>
          let n := s.total_records + 1
          let s1 : GenState :=
            { s with
              total_records := n
              actions := s.actions ++ [mkAction cfg.index_name r]
              reports :=
                if n % cfg.progress_interval == 0 then s.reports ++ [n]
                else s.reports }
          if limitHit cfg.test_limit n then (s1, true)
          else runLines cfg rest s1

/-- Processing of one discovered file inside `generate_actions`
(builder.py:222-278): the resume skip (builder.py:226-227), the line
loop, the `except Exception` handler counting a fatal I/O error once and
abandoning the file (builder.py:268-271), and marking the file complete
(builder.py:274).  The periodic `_save_progress` call (builder.py:277-278)
does not change the generator state and is not modelled. -/
def stepFile (cfg : Config α) (f : JFile α) (s : GenState) : GenState × Bool :=
  if cfg.resume && decide (f.path ∈ s.processed_files) then (s, false)
  else
    match runLines cfg f.lines s with
    | (s1, true) => (s1, true)
    | (s1, false) =>
        if f.ioError then
          ({ s1 with total_errors := s1.total_errors + 1 }, false)
        else
          ({ s1 with processed_files := insert f.path s1.processed_files },
            false)

/-- The whole generator `generate_actions` (builder.py:219-278): iterate
the discovered files in order; a `return` triggered by the test limit
terminates the entire stream. -/
def generate_actions (cfg : Config α) : List (JFile α) → GenState → GenState
  | [], s => s
  | f :: rest, s =>
      match stepFile cfg f s with
      | (s1, true) => s1
      | (s1, false) => generate_actions cfg rest s1

/-- Number of per-item failures the bulk helper reports for the emitted
actions, given each item's backend outcome. -/
def failCount (outcome : WriteOperation → Bool)
    (acts : List WriteOperation) : Nat :=
  (acts.filter (fun a => !(outcome a))).length

/-- The statistics dict returned by `add_jsonl_files`
(builder.py:306-314). -/
structure RunStats where
  total_records : Nat
  total_errors : Nat
  rate_per_second : ℚ
  files_processed : Nat
deriving DecidableEq

/-- `add_jsonl_files` after file discovery (builder.py:214-317): run the
generator over the discovered files starting from the loaded
processed-file set, consume the stream either through `parallel_bulk` —
whose per-item results feed `if not success: total_errors += 1`
(builder.py:281-290) — or through `bulk`, whose return value is discarded
(builder.py:291-297), then build the statistics dict (builder.py:306-314).
`outcome` gives each item's backend success, `elapsed` abstracts
`time.time() - start_time`. -/
def add_jsonl_files (cfg : Config α) (parallel : Bool)
    (outcome : WriteOperation → Bool) (files : List (JFile α))
    (loaded : Finset String) (elapsed : ℚ) : RunStats :=
  let g := generate_actions cfg files (initState loaded)
  let errs :=
    if parallel then g.total_errors + failCount outcome g.actions
    else g.total_errors
  { total_records := g.total_records
    total_errors := errs
    rate_per_second :=
      if 0 < elapsed then (g.total_records : ℚ) / elapsed else 0
    files_processed := g.processed_files.card }

/-- The throughput printed in a periodic progress line (builder.py:252-253):
`rate = total_records / elapsed` with no zero guard; `none` models the
`ZeroDivisionError` Python raises when `elapsed` is exactly 0. -/
def progressLineRate (total_records : Nat) (elapsed : ℚ) : Option ℚ :=
  if elapsed = 0 then none else some ((total_records : ℚ) / elapsed)

/-- The `rate_per_second` entry of the final statistics (builder.py:312):
`total_records / elapsed if elapsed > 0 else 0`. -/
def rate_per_second (total_records : Nat) (elapsed : ℚ) : ℚ :=
  if 0 < elapsed then (total_records : ℚ) / elapsed else 0

/-- Outcome of the `try` block of `_load_progress` (builder.py:160-166):
either the progress document was fetched and its `processed_files` JSON
field parsed to a list of paths, or some step raised — missing document,
unreadable response, or corrupt JSON. -/
inductive LoadOutcome where
  | ok : List String → LoadOutcome
  | failure : LoadOutcome
deriving DecidableEq

/-- `_load_progress` (builder.py:158-168): `set(json.loads(files_json))`
on success; any exception degrades to the empty set. -/
def load_progress : LoadOutcome → Finset String
  | LoadOutcome.ok fs => fs.toFinset
  | LoadOutcome.failure => ∅

/-- `_save_progress` (builder.py:170-180) persists
`json.dumps(list(self._processed_files))` under the key
`progress_` ++ index name; a later successful `_load_progress` reads back
exactly that list.  Python's `list(set)` enumerates the set in an
unspecified order; the model picks the sorted enumeration. -/
def save_progress (s : Finset String) : LoadOutcome :=
  LoadOutcome.ok (s.sort (fun a b => a ≤ b))

/-- For file discovery a path or pattern string is represented by the
list of its `/`-separated segments (so `"data/a.jsonl"` is
`["data", "a.jsonl"]`).  `Path(p).parent` drops the last segment
(builder.py:208). -/
def parentOf (p : List String) : List String :=
  p.dropLast

/-- `Path(p).name`, the last segment of the path (builder.py:209). -/
def nameOf (p : List String) : String :=
  p.getLastD ""

/-- Glob matching of one path segment, the `fnmatch` semantics used by
`Path.glob` restricted to the wildcards relevant here: `*` matches any
run of characters, `?` one character, every other character itself.
Structural recursion on a fuel argument; each recursive call shrinks
`ps.length + cs.length`, so `segMatch` below always supplies enough
fuel for the `0` case never to be reached. -/
def segMatchF : Nat → List Char → List Char → Bool
  | 0, _, _ => false
  | _ + 1, [], [] => true
  | _ + 1, [], _ :: _ => false
  | fuel + 1, '*' :: ps, [] => segMatchF fuel ps []
  | fuel + 1, '*' :: ps, c :: cs =>
      segMatchF fuel ps (c :: cs) || segMatchF fuel ( '*' :: ps) cs
  | _ + 1, '?' :: _, [] => false
  | fuel + 1, '?' :: ps, _ :: cs => segMatchF fuel ps cs
  | fuel + 1, p :: ps, c :: cs => (p == c) && segMatchF fuel ps cs
  | _ + 1, _ :: _, [] => false

/-- Glob matching of one path segment (pattern, then candidate name). -/
def segMatch (ps cs : List Char) : Bool :=
  segMatchF (ps.length + cs.length + 1) ps cs

/-- The non-recursive branch of file discovery (builder.py:207-210):
`sorted(base_path.glob(glob_pattern))` with
`base_path = Path(pattern).parent` and `glob_pattern = Path(pattern).name`,
over a filesystem abstracted as the list of existing file paths.  Only the
final pattern segment is glob-matched; the parent portion of the pattern
is the literal directory the files must sit in, exactly as
`base_path.glob(glob_pattern)` behaves.  `sorted` is lexicographic on the
segment lists, matching `pathlib`'s ordering by parts. -/
def discoveredFiles (pattern : List String) (fs : List (List String)) :
    List (List String) :=
  List.insertionSort (fun a b => a ≤ b)
    (fs.filter (fun p =>
      parentOf p == parentOf pattern
        && segMatch (nameOf pattern).toList (nameOf p).toList))

/-- Modelled from the spec: the File Discoverer output is the "file paths
matching the pattern" (spec §4.1) — the whole pattern matched against the
whole path, segment by segment, with glob wildcards honoured in every
segment.  This is the spec-side definition for the refinement comparison
with `discoveredFiles`. -/
def segsMatch : List String → List String → Bool
  | [], [] => true
  | p :: ps, q :: qs => segMatch p.toList q.toList && segsMatch ps qs
  | _, _ => false

/-- Modelled from the spec: a path matches a glob pattern when their
segment lists match pairwise (spec §4.1). -/
def specGlobMatch (pattern path : List String) : Bool :=
  segsMatch pattern path

/-- Whether a line is one that raises `json.JSONDecodeError`
(builder.py:265). -/
def isMalformed : Line α → Bool
  | Line.malformed => true
  | Line.parsed _ => false

/-- Number of malformed lines in a file's line list. -/
def malformedCount (ls : List (Line α)) : Nat :=
  (ls.filter isMalformed).length

/-- Whether a line parses and the extractor produces a record for it
(builder.py:233-236). -/
def extractsRecord (extr : α → Option ExtractedRecord) : Line α → Bool
  | Line.malformed => false
  | Line.parsed a => (extr a).isSome

/-- Number of lines of a file that yield an emitted action. -/
def extractCount (extr : α → Option ExtractedRecord)
    (ls : List (Line α)) : Nat :=
  (ls.filter (extractsRecord extr)).length

/-- Sample record used by the concrete runs below. -/
def sampleRecord : ExtractedRecord :=
  ⟨"doi1", "title", "content", "2020", "10.5"⟩

/-- Sample configuration: default extractor accepting every record, no
test limit, resume on, default progress interval (builder.py:89, 186-188). -/
def sampleCfg : Config Unit :=
  { index_name := "corpus"
    extractor := fun _ => some sampleRecord
    test_limit := none
    resume := true
    progress_interval := 100000 }

/-- Sample single-record file. -/
def sampleFile : JFile Unit := ⟨"data/a.jsonl", [Line.parsed ()], false⟩

/-- Sample file contents with 10 valid lines and 2 malformed lines. -/
def mixedLines : List (Line Unit) :=
  List.replicate 4 (Line.parsed ()) ++ [Line.malformed]
    ++ List.replicate 6 (Line.parsed ()) ++ [Line.malformed]

/-- Sample configuration whose extractor rejects every record, as
`default_extractor` does on any internal failure (builder.py:63-64). -/
def rejectCfg : Config Unit :=
  { sampleCfg with extractor := fun _ => none }

/-- Sample configuration reporting progress after every record. -/
def intervalOneCfg : Config Unit :=
  { sampleCfg with progress_interval := 1 }
theorem runLines_processed (cfg : Config α) (ls : List (Line α)) (s : GenState) :
    ((runLines cfg ls s).1).processed_files = s.processed_files := by
  induction ls generalizing s with
  | nil => rfl
  | cons l rest ih =>
    cases l with
    | malformed => simpa [runLines] using ih _
    | parsed a =>
      simp only [runLines]
      cases h : cfg.extractor a with
      | none => simpa using ih _
      | some r =>
        by_cases hl : limitHit cfg.test_limit (s.total_records + 1) <;>
          simp [hl, ih]

theorem runLines_count (cfg : Config α) (ls : List (Line α)) (s : GenState) :
    ((runLines cfg ls s).1).actions.length + s.total_records
      = ((runLines cfg ls s).1).total_records + s.actions.length := by
  induction ls generalizing s with
  | nil => simp only [runLines]; omega
  | cons l rest ih =>
    cases l with
    | malformed => simpa [runLines] using ih _
    | parsed a =>
      simp only [runLines]
      cases h : cfg.extractor a with
      | none => simpa using ih _
      | some r =>
        by_cases hl : limitHit cfg.test_limit (s.total_records + 1)
        · simp [hl]; omega
        · simp only [hl, if_false]
          have := ih ({ s with
            total_records := s.total_records + 1
            actions := s.actions ++ [mkAction cfg.index_name r]
            reports := if (s.total_records + 1) % cfg.progress_interval == 0
              then s.reports ++ [s.total_records + 1] else s.reports })
          simp at this ⊢
          omega

theorem malformedCount_cons_mal (rest : List (Line α)) :
    malformedCount (Line.malformed :: rest) = malformedCount rest + 1 := by
  simp [malformedCount, List.filter_cons, isMalformed]

theorem malformedCount_cons_parsed (a : α) (rest : List (Line α)) :
    malformedCount (Line.parsed a :: rest) = malformedCount rest := by
  simp [malformedCount, List.filter_cons, isMalformed]

theorem extractCount_cons_mal (extr : α → Option ExtractedRecord)
    (rest : List (Line α)) :
    extractCount extr (Line.malformed :: rest) = extractCount extr rest := by
  simp [extractCount, List.filter_cons, extractsRecord]

theorem extractCount_cons_parsed (extr : α → Option ExtractedRecord) (a : α)
    (rest : List (Line α)) :
    extractCount extr (Line.parsed a :: rest)
      = (if (extr a).isSome then 1 else 0) + extractCount extr rest := by
  by_cases h : (extr a).isSome
  · simp only [extractCount, List.filter_cons, extractsRecord, h, if_true,
      List.length_cons]
    omega
  · simp [extractCount, List.filter_cons, extractsRecord, h]

theorem runLines_none (cfg : Config α) (h : cfg.test_limit = none)
    (ls : List (Line α)) (s : GenState) :
    (runLines cfg ls s).2 = false
      ∧ ((runLines cfg ls s).1).total_errors = s.total_errors + malformedCount ls
      ∧ ((runLines cfg ls s).1).total_records
          = s.total_records + extractCount cfg.extractor ls := by
  induction ls generalizing s with
  | nil => simp [runLines, malformedCount, extractCount]
  | cons l rest ih =>
    cases l with
    | malformed =>
      simp only [runLines, malformedCount_cons_mal, extractCount_cons_mal]
      have h2 := ih { s with total_errors := s.total_errors + 1 }
      simp only at h2
      exact ⟨h2.1, by omega, by omega⟩
    | parsed a =>
      simp only [runLines, malformedCount_cons_parsed, extractCount_cons_parsed]
      cases he : cfg.extractor a with
      | none =>
        have h2 := ih s
        simpa [he] using h2
      | some r =>
        have hl : limitHit cfg.test_limit (s.total_records + 1) = false := by
          simp [limitHit, h]
        simp only [hl, he, Bool.false_eq_true, if_false, Option.isSome_some,
          if_true]
        have h2 := ih { s with
          total_records := s.total_records + 1
          actions := s.actions ++ [mkAction cfg.index_name r]
          reports := if (s.total_records + 1) % cfg.progress_interval == 0
            then s.reports ++ [s.total_records + 1] else s.reports }
        simp only at h2
        exact ⟨h2.1, by omega, by omega⟩

theorem runLines_limit (cfg : Config α) (K : Int) (h : cfg.test_limit = some K)
    (hK : 0 < K) (ls : List (Line α)) (s : GenState)
    (hs : (s.total_records : Int) < K) :
    (((runLines cfg ls s).1).total_records : Int) ≤ K
      ∧ ((runLines cfg ls s).2 = false →
          (((runLines cfg ls s).1).total_records : Int) < K) := by
  induction ls generalizing s with
  | nil => exact ⟨le_of_lt hs, fun _ => hs⟩
  | cons l rest ih =>
    cases l with
    | malformed =>
      exact ih { s with total_errors := s.total_errors + 1 } hs
    | parsed a =>
      simp only [runLines]
      cases he : cfg.extractor a with
      | none => exact ih s hs
      | some r =>
        by_cases hl : limitHit cfg.test_limit (s.total_records + 1) = true
        · simp only [hl, if_true]
          constructor
          · show ((s.total_records + 1 : Nat) : Int) ≤ K
            have hhit := hl
            simp [limitHit, h] at hhit
            push_cast
            omega
          · intro hfalse
            simp at hfalse
        · have hl2 : limitHit cfg.test_limit (s.total_records + 1) = false := by
            simpa using hl
          simp only [hl2, Bool.false_eq_true, if_false]
          have hnot := hl2
          simp [limitHit, h] at hnot
          have hlt := hnot (by omega)
          exact ih _ (by show ((s.total_records + 1 : Nat) : Int) < K; push_cast; omega)

theorem stepFile_char (cfg : Config α) (f : JFile α) (s : GenState) :
    ((stepFile cfg f s).1).processed_files = s.processed_files
      ∨ (((stepFile cfg f s).1).processed_files = insert f.path s.processed_files
          ∧ f.ioError = false ∧ (stepFile cfg f s).2 = false) := by
  by_cases hskip : (cfg.resume && decide (f.path ∈ s.processed_files)) = true
  · left; simp [stepFile, hskip]
  · rcases hr : runLines cfg f.lines s with ⟨s1, b⟩
    have hp : s1.processed_files = s.processed_files := by
      have := runLines_processed cfg f.lines s
      rw [hr] at this
      exact this
    cases b with
    | true => left; simp [stepFile, hskip, hr, hp]
    | false =>
      cases hio : f.ioError with
      | true => left; simp [stepFile, hskip, hr, hio, hp]
      | false => right; simp [stepFile, hskip, hr, hio, hp]

theorem stepFile_halted_processed (cfg : Config α) (f : JFile α) (s : GenState)
    (h : (stepFile cfg f s).2 = true) :
    ((stepFile cfg f s).1).processed_files = s.processed_files := by
  rcases stepFile_char cfg f s with h1 | ⟨_, _, h3⟩
  · exact h1
  · rw [h] at h3; cases h3

theorem stepFile_mono (cfg : Config α) (f : JFile α) (s : GenState) :
    s.processed_files ⊆ ((stepFile cfg f s).1).processed_files := by
  rcases stepFile_char cfg f s with h1 | ⟨h2, _, _⟩
  · rw [h1]
  · rw [h2]; exact Finset.subset_insert _ _

theorem stepFile_count (cfg : Config α) (f : JFile α) (s : GenState) :
    ((stepFile cfg f s).1).actions.length + s.total_records
      = ((stepFile cfg f s).1).total_records + s.actions.length := by
  by_cases hskip : (cfg.resume && decide (f.path ∈ s.processed_files)) = true
  · simp [stepFile, hskip]; omega
  · have hc := runLines_count cfg f.lines s
    rcases hr : runLines cfg f.lines s with ⟨s1, b⟩
    rw [hr] at hc
    cases b with
    | true => simpa [stepFile, hskip, hr] using hc
    | false =>
      cases hio : f.ioError with
      | true => simpa [stepFile, hskip, hr, hio] using hc
      | false => simpa [stepFile, hskip, hr, hio] using hc

theorem stepFile_limit (cfg : Config α) (K : Int) (h : cfg.test_limit = some K)
    (hK : 0 < K) (f : JFile α) (s : GenState)
    (hs : (s.total_records : Int) < K) :
    (((stepFile cfg f s).1).total_records : Int) ≤ K
      ∧ ((stepFile cfg f s).2 = false →
          (((stepFile cfg f s).1).total_records : Int) < K) := by
  by_cases hskip : (cfg.resume && decide (f.path ∈ s.processed_files)) = true
  · constructor
    · simp only [stepFile, hskip, if_true]
      omega
    · intro _
      simp only [stepFile, hskip, if_true]
      omega
  · have hb := runLines_limit cfg K h hK f.lines s hs
    rcases hr : runLines cfg f.lines s with ⟨s1, b⟩
    rw [hr] at hb
    cases b with
    | true =>
      constructor
      · simpa [stepFile, hskip, hr] using hb.1
      · intro hfalse
        simp [stepFile, hskip, hr] at hfalse
    | false =>
      cases hio : f.ioError with
      | true =>
        constructor
        · simp only [stepFile, hskip, hr, hio, Bool.false_eq_true, if_false,
            if_true]
          exact le_of_lt (hb.2 rfl)
        · intro _
          simp only [stepFile, hskip, hr, hio, Bool.false_eq_true, if_false,
            if_true]
          exact hb.2 rfl
      | false =>
        constructor
        · simp only [stepFile, hskip, hr, hio, Bool.false_eq_true, if_false]
          exact le_of_lt (hb.2 rfl)
        · intro _
          simp only [stepFile, hskip, hr, hio, Bool.false_eq_true, if_false]
          exact hb.2 rfl

theorem run_mono (cfg : Config α) (fs : List (JFile α)) (s : GenState) :
    s.processed_files ⊆ (generate_actions cfg fs s).processed_files := by
  induction fs generalizing s with
  | nil => simp [generate_actions]
  | cons f rest ih =>
    have hm := stepFile_mono cfg f s
    rcases hr : stepFile cfg f s with ⟨s1, b⟩
    rw [hr] at hm
    cases b with
    | true => simpa [generate_actions, hr] using hm
    | false =>
      simp only [generate_actions, hr]
      exact hm.trans (ih s1)

theorem run_processed (cfg : Config α) (fs : List (JFile α)) (s : GenState)
    (p : String) (hp : p ∈ (generate_actions cfg fs s).processed_files) :
    p ∈ s.processed_files
      ∨ ∃ f, f ∈ fs ∧ f.path = p ∧ f.ioError = false := by
  induction fs generalizing s with
  | nil => left; simpa [generate_actions] using hp
  | cons f rest ih =>
    have hchar := stepFile_char cfg f s
    rcases hr : stepFile cfg f s with ⟨s1, b⟩
    rw [hr] at hchar
    simp only at hchar
    cases b with
    | true =>
      simp only [generate_actions, hr] at hp
      rcases hchar with h1 | ⟨_, _, h3⟩
      · left; rwa [h1] at hp
      · cases h3
    | false =>
      simp only [generate_actions, hr] at hp
      rcases ih s1 hp with h1 | ⟨f2, hf2, hfp, hfe⟩
      · rcases hchar with hc1 | ⟨hc2, hce, _⟩
        · left; rwa [hc1] at h1
        · rw [hc2] at h1
          rcases Finset.mem_insert.mp h1 with he | hm
          · right
            exact ⟨f, List.mem_cons_self f rest, he.symm, hce⟩
          · left; exact hm
      · right
        exact ⟨f2, List.mem_cons_of_mem f hf2, hfp, hfe⟩

theorem run_count (cfg : Config α) (fs : List (JFile α)) (s : GenState) :
    (generate_actions cfg fs s).actions.length + s.total_records
      = (generate_actions cfg fs s).total_records + s.actions.length := by
  induction fs generalizing s with
  | nil => simp only [generate_actions]; omega
  | cons f rest ih =>
    have hc := stepFile_count cfg f s
    rcases hr : stepFile cfg f s with ⟨s1, b⟩
    rw [hr] at hc
    simp only at hc
    cases b with
    | true => simpa [generate_actions, hr] using hc
    | false =>
      simp only [generate_actions, hr]
      have := ih s1
      omega

theorem run_limit (cfg : Config α) (K : Int) (h : cfg.test_limit = some K)
    (hK : 0 < K) (fs : List (JFile α)) (s : GenState)
    (hs : (s.total_records : Int) < K) :
    (((generate_actions cfg fs s).total_records : Int)) ≤ K := by
  induction fs generalizing s with
  | nil => simpa [generate_actions] using le_of_lt hs
  | cons f rest ih =>
    have hb := stepFile_limit cfg K h hK f s hs
    rcases hr : stepFile cfg f s with ⟨s1, b⟩
    rw [hr] at hb
    simp only at hb
    cases b with
    | true => simpa [generate_actions, hr] using hb.1
    | false =>
      simp only [generate_actions, hr]
      exact ih s1 (hb.2 rfl)

theorem stepFile_skip (cfg : Config α) (f : JFile α) (s : GenState)
    (h1 : cfg.resume = true) (h2 : f.path ∈ s.processed_files) :
    stepFile cfg f s = (s, false) := by
  simp [stepFile, h1, h2]

theorem run_filter (cfg : Config α) (h : cfg.resume = true)
    (fs : List (JFile α)) (s0 s : GenState)
    (hsub : s0.processed_files ⊆ s.processed_files) :
    generate_actions cfg fs s
      = generate_actions cfg
          (fs.filter (fun f => !decide (f.path ∈ s0.processed_files))) s := by
  induction fs generalizing s with
  | nil => rfl
  | cons f rest ih =>
    by_cases hf : f.path ∈ s0.processed_files
    · have hskip := stepFile_skip cfg f s h (hsub hf)
      have hdrop : (!decide (f.path ∈ s0.processed_files)) = false := by
        simp [hf]
      simp only [List.filter_cons, hdrop, Bool.false_eq_true, if_false]
      simp only [generate_actions, hskip]
      exact ih s hsub
    · have hkeep : (!decide (f.path ∈ s0.processed_files)) = true := by
        simp [hf]
      simp only [List.filter_cons, hkeep, if_true]
      simp only [generate_actions]
      have hm := stepFile_mono cfg f s
      rcases hr : stepFile cfg f s with ⟨s1, b⟩
      rw [hr] at hm
      simp only at hm
      cases b with
      | true => rfl
      | false => exact ih s1 (hsub.trans hm)

theorem stepFile_complete (cfg : Config α) (h : cfg.test_limit = none)
    (p : String) (ls : List (Line α)) (s : GenState)
    (hskip : (cfg.resume && decide (p ∈ s.processed_files)) = false) :
    (stepFile cfg ⟨p, ls, false⟩ s).2 = false
      ∧ ((stepFile cfg ⟨p, ls, false⟩ s).1).total_errors
          = s.total_errors + malformedCount ls
      ∧ ((stepFile cfg ⟨p, ls, false⟩ s).1).total_records
          = s.total_records + extractCount cfg.extractor ls
      ∧ ((stepFile cfg ⟨p, ls, false⟩ s).1).actions.length
          = s.actions.length + extractCount cfg.extractor ls
      ∧ ((stepFile cfg ⟨p, ls, false⟩ s).1).processed_files
          = insert p s.processed_files := by
  have hn := runLines_none cfg h ls s
  have hc := runLines_count cfg ls s
  have hp := runLines_processed cfg ls s
  rcases hr : runLines cfg ls s with ⟨s1, b⟩
  rw [hr] at hn hc hp
  simp only at hn hc hp
  have hb : b = false := hn.1
  subst hb
  simp only [stepFile, hskip, Bool.false_eq_true, if_false, hr]
  refine ⟨trivial, hn.2.1, hn.2.2, by omega, by rw [hp]⟩

theorem stepFile_ioerror (cfg : Config α) (h : cfg.test_limit = none)
    (p : String) (ls : List (Line α)) (s : GenState)
    (hskip : (cfg.resume && decide (p ∈ s.processed_files)) = false) :
    (stepFile cfg ⟨p, ls, true⟩ s).2 = false
      ∧ ((stepFile cfg ⟨p, ls, true⟩ s).1).total_errors
          = s.total_errors + malformedCount ls + 1
      ∧ ((stepFile cfg ⟨p, ls, true⟩ s).1).total_records
          = s.total_records + extractCount cfg.extractor ls
      ∧ ((stepFile cfg ⟨p, ls, true⟩ s).1).processed_files
          = s.processed_files := by
  have hn := runLines_none cfg h ls s
  have hp := runLines_processed cfg ls s
  rcases hr : runLines cfg ls s with ⟨s1, b⟩
  rw [hr] at hn hp
  simp only at hn hp
  have hb : b = false := hn.1
  subst hb
  simp only [stepFile, hskip, Bool.false_eq_true, if_false, hr, if_true]
  refine ⟨trivial, by rw [hn.2.1], hn.2.2, hp⟩

theorem counts_of_rejected (extr : α → Option ExtractedRecord) :
    ∀ ls : List (Line α),
      (∀ l, l ∈ ls → ∃ a, l = Line.parsed a ∧ extr a = none) →
      malformedCount ls = 0 ∧ extractCount extr ls = 0 := by
  intro ls
  induction ls with
  | nil => intro _; simp [malformedCount, extractCount]
  | cons l rest ih =>
    intro hall
    rcases hall l (List.mem_cons_self l rest) with ⟨a, hl, ha⟩
    subst hl
    have ih2 := ih (fun l2 hl2 => hall l2 (List.mem_cons_of_mem _ hl2))
    constructor
    · rw [malformedCount_cons_parsed]; exact ih2.1
    · rw [extractCount_cons_parsed, ih2.2, ha]
      simp

/-- C1: during `add_jsonl_files`, a path newly present in the
processed-file set can only come from a discovered file that was read
with no fatal I/O error; one file step either leaves the set unchanged or
inserts exactly its own path, the latter only when the file had no fatal
I/O error and the stream did not terminate inside it; and a file whose
read raises a fatal I/O error increments the error counter exactly once
beyond its per-line parse errors, is abandoned, and is never marked
processed. -/
theorem claim1_marking_invariant (cfg : Config α) :
    (∀ fs s p, p ∈ (generate_actions cfg fs s).processed_files →
        p ∈ s.processed_files ∨ ∃ f, f ∈ fs ∧ f.path = p ∧ f.ioError = false)
      ∧ (∀ f s, ((stepFile cfg f s).1).processed_files = s.processed_files
          ∨ (((stepFile cfg f s).1).processed_files
                = insert f.path s.processed_files
              ∧ f.ioError = false ∧ (stepFile cfg f s).2 = false))
      ∧ (cfg.test_limit = none →
          ∀ p ls s, (cfg.resume && decide (p ∈ s.processed_files)) = false →
            (stepFile cfg ⟨p, ls, true⟩ s).2 = false
              ∧ ((stepFile cfg ⟨p, ls, true⟩ s).1).total_errors
                  = s.total_errors + malformedCount ls + 1
              ∧ ((stepFile cfg ⟨p, ls, true⟩ s).1).processed_files
                  = s.processed_files) :=
  ⟨fun fs s p hp => run_processed cfg fs s p hp,
   fun f s => stepFile_char cfg f s,
   fun h p ls s hskip =>
     ⟨(stepFile_ioerror cfg h p ls s hskip).1,
      (stepFile_ioerror cfg h p ls s hskip).2.1,
      (stepFile_ioerror cfg h p ls s hskip).2.2.2⟩⟩

/-- Witness for C1: a concrete completed file is the only source of its
marking, and a concrete I/O-error file counts its malformed line plus one
fatal error and stays unmarked. -/
theorem claim1_witness :
    (∃ f, f ∈ [sampleFile] ∧ f.path = "data/a.jsonl" ∧ f.ioError = false)
      ∧ ((stepFile sampleCfg ⟨"g", [Line.malformed], true⟩
            (initState ∅)).1).total_errors = 2
      ∧ ((stepFile sampleCfg ⟨"g", [Line.malformed], true⟩
            (initState ∅)).1).processed_files = ∅ := by
  have h := claim1_marking_invariant sampleCfg
  have h1 := h.1 [sampleFile] (initState ∅) "data/a.jsonl" (by decide)
  have h3 := h.2.2 rfl "g" [Line.malformed] (initState ∅) (by decide)
  refine ⟨?_, ?_, ?_⟩
  · rcases h1 with hin | hex
    · exact absurd hin (by decide)
    · exact hex
  · rw [h3.2.1]; decide
  · rw [h3.2.2]; rfl

/-- C2: with resume enabled, a file whose path is in the processed-file
set is skipped entirely — its step is the identity, contributing zero
records, zero errors and zero actions — and a whole run equals the run
over only the files whose paths are absent from the loaded set. -/
theorem claim2_resume_skips_processed (cfg : Config α)
    (h : cfg.resume = true) :
    (∀ f s, f.path ∈ s.processed_files → stepFile cfg f s = (s, false))
      ∧ ∀ fs s0, generate_actions cfg fs s0
          = generate_actions cfg
              (fs.filter (fun f => !decide (f.path ∈ s0.processed_files)))
              s0 :=
  ⟨fun f s hf => stepFile_skip cfg f s h hf,
   fun fs s0 => run_filter cfg h fs s0 s0 (Finset.Subset.refl _)⟩

/-- Witness for C2: a run over one already-processed file is the identity
on the generator state. -/
theorem claim2_witness :
    stepFile sampleCfg sampleFile (initState {"data/a.jsonl"})
        = (initState {"data/a.jsonl"}, false)
      ∧ generate_actions sampleCfg [sampleFile] (initState {"data/a.jsonl"})
          = initState {"data/a.jsonl"} := by
  have h := claim2_resume_skips_processed sampleCfg rfl
  refine ⟨h.1 sampleFile (initState {"data/a.jsonl"}) (by decide), ?_⟩
  have h2 := h.2 [sampleFile] (initState {"data/a.jsonl"})
  rw [h2]
  decide

/-- C3 counterexample: the claim promises at most K emitted operations
for every configured record limit K, but with `test_limit = 0` Python's
truthiness check `if test_limit and ...` (builder.py:262) disables the
limit, and a run over one single-record file emits 1 > 0 operations. -/
theorem claim3_counterexample :
    (generate_actions { sampleCfg with test_limit := some 0 } [sampleFile]
        (initState ∅)).actions.length = 1 := by decide

/-- C3 amended: for every positive record limit K, the run emits at most
K WriteOperations (emitted actions and record counter coincide), and a
step during which the stream terminated mid-file leaves the processed-file
set unchanged, so the current file stays unmarked. -/
theorem claim3_limit_enforcement (cfg : Config α) (K : Int)
    (h : cfg.test_limit = some K) (hK : 0 < K) (fs : List (JFile α))
    (loaded : Finset String) :
    ((generate_actions cfg fs (initState loaded)).total_records : Int) ≤ K
      ∧ (generate_actions cfg fs (initState loaded)).actions.length
          = (generate_actions cfg fs (initState loaded)).total_records
      ∧ ∀ f s, (stepFile cfg f s).2 = true →
          ((stepFile cfg f s).1).processed_files = s.processed_files := by
  refine ⟨run_limit cfg K h hK fs _ ?_, ?_,
    fun f s hh => stepFile_halted_processed cfg f s hh⟩
  · show ((0 : Nat) : Int) < K
    omega
  · have hc := run_count cfg fs (initState loaded)
    simp only [initState, List.length_nil] at hc ⊢
    omega

/-- Witness for C3: limit 1 over a two-record file emits one action and
leaves the file unmarked. -/
theorem claim3_witness :
    ((generate_actions { sampleCfg with test_limit := some 1 }
        [⟨"two", [Line.parsed (), Line.parsed ()], false⟩]
        (initState ∅)).total_records : Int) ≤ 1
      ∧ (generate_actions { sampleCfg with test_limit := some 1 }
          [⟨"two", [Line.parsed (), Line.parsed ()], false⟩]
          (initState ∅)).actions.length
        = (generate_actions { sampleCfg with test_limit := some 1 }
            [⟨"two", [Line.parsed (), Line.parsed ()], false⟩]
            (initState ∅)).total_records
      ∧ ((stepFile { sampleCfg with test_limit := some 1 }
            ⟨"two", [Line.parsed (), Line.parsed ()], false⟩
            (initState ∅)).1).processed_files
          = (initState ∅).processed_files := by
  have h := claim3_limit_enforcement
      { sampleCfg with test_limit := some 1 } 1 rfl (by omega)
      [⟨"two", [Line.parsed (), Line.parsed ()], false⟩] ∅
  exact ⟨h.1, h.2.1, h.2.2 _ _ (by decide)⟩

/-- C4: with no record limit, a non-skipped, I/O-error-free file adds
exactly its malformed-line count to the error counter, emits exactly one
action per successfully extracted line, continues past each malformed
line to the end of the file, and is marked processed. -/
theorem claim4_malformed_tolerance (cfg : Config α)
    (h : cfg.test_limit = none) (p : String) (ls : List (Line α))
    (s : GenState)
    (hskip : (cfg.resume && decide (p ∈ s.processed_files)) = false) :
    (stepFile cfg ⟨p, ls, false⟩ s).2 = false
      ∧ ((stepFile cfg ⟨p, ls, false⟩ s).1).total_errors
          = s.total_errors + malformedCount ls
      ∧ ((stepFile cfg ⟨p, ls, false⟩ s).1).total_records
          = s.total_records + extractCount cfg.extractor ls
      ∧ ((stepFile cfg ⟨p, ls, false⟩ s).1).actions.length
          = s.actions.length + extractCount cfg.extractor ls
      ∧ ((stepFile cfg ⟨p, ls, false⟩ s).1).processed_files
          = insert p s.processed_files :=
  stepFile_complete cfg h p ls s hskip

/-- Witness for C4: a file with 10 valid lines and 2 malformed lines
yields exactly 10 emitted operations, an error count of 2, and is still
marked processed. -/
theorem claim4_witness :
    ((stepFile sampleCfg ⟨"m", mixedLines, false⟩
        (initState ∅)).1).actions.length = 10
      ∧ ((stepFile sampleCfg ⟨"m", mixedLines, false⟩
            (initState ∅)).1).total_errors = 2
      ∧ ((stepFile sampleCfg ⟨"m", mixedLines, false⟩
            (initState ∅)).1).processed_files = {"m"} := by
  have h := claim4_malformed_tolerance sampleCfg rfl "m" mixedLines
      (initState ∅) (by decide)
  refine ⟨?_, ?_, ?_⟩
  · rw [h.2.2.2.1]; decide
  · rw [h.2.1]; decide
  · rw [h.2.2.2.2]; decide

/-- C5: a parsed line the extractor rejects (returns no record for,
including any internal extractor failure swallowed by
`default_extractor`) contributes nothing at all — the per-line loop state
is exactly the state after skipping the line, with no action emitted and
no error counted — and a file made only of such lines is still marked
processed with all counters unchanged. -/
theorem claim5_rejection_silent (cfg : Config α) :
    (∀ a rest s, cfg.extractor a = none →
        runLines cfg (Line.parsed a :: rest) s = runLines cfg rest s)
      ∧ (cfg.test_limit = none →
          ∀ p ls s, (cfg.resume && decide (p ∈ s.processed_files)) = false →
            (∀ l, l ∈ ls → ∃ a, l = Line.parsed a ∧ cfg.extractor a = none) →
            (stepFile cfg ⟨p, ls, false⟩ s).2 = false
              ∧ ((stepFile cfg ⟨p, ls, false⟩ s).1).total_errors
                  = s.total_errors
              ∧ ((stepFile cfg ⟨p, ls, false⟩ s).1).total_records
                  = s.total_records
              ∧ ((stepFile cfg ⟨p, ls, false⟩ s).1).actions.length
                  = s.actions.length
              ∧ ((stepFile cfg ⟨p, ls, false⟩ s).1).processed_files
                  = insert p s.processed_files) := by
  constructor
  · intro a rest s ha
    simp [runLines, ha]
  · intro h p ls s hskip hall
    have hc := counts_of_rejected cfg.extractor ls hall
    have hs := stepFile_complete cfg h p ls s hskip
    refine ⟨hs.1, ?_, ?_, ?_, hs.2.2.2.2⟩
    · rw [hs.2.1, hc.1, Nat.add_zero]
    · rw [hs.2.2.1, hc.2, Nat.add_zero]
    · rw [hs.2.2.2.1, hc.2, Nat.add_zero]

/-- Witness for C5: a rejecting extractor produces no action, no error,
and the file is still marked processed. -/
theorem claim5_witness :
    runLines rejectCfg [Line.parsed ()] (initState ∅)
        = runLines rejectCfg [] (initState ∅)
      ∧ ((stepFile rejectCfg ⟨"r", [Line.parsed ()], false⟩
            (initState ∅)).1).total_errors = 0
      ∧ ((stepFile rejectCfg ⟨"r", [Line.parsed ()], false⟩
            (initState ∅)).1).actions.length = 0
      ∧ ((stepFile rejectCfg ⟨"r", [Line.parsed ()], false⟩
            (initState ∅)).1).processed_files = {"r"} := by
  have h := claim5_rejection_silent rejectCfg
  have h2 := h.2 rfl "r" [Line.parsed ()] (initState ∅) (by decide)
      (fun l hl => by
        have hl2 := List.mem_singleton.mp hl
        subst hl2
        exact ⟨(), rfl, rfl⟩)
  refine ⟨h.1 () [] (initState ∅) rfl, ?_, ?_, ?_⟩
  · rw [h2.2.1]; rfl
  · rw [h2.2.2.2.1]; rfl
  · rw [h2.2.2.2.2]; decide

/-- C6 counterexample: the claim promises that per-item backend write
failures are counted in both submission modes, but in sequential mode
(`parallel=False`) the return value of `bulk` is discarded
(builder.py:291-297): a run whose single emitted item fails at the
backend still reports `total_errors = 0`. -/
theorem claim6_counterexample :
    failCount (fun _ => false)
        (generate_actions sampleCfg [sampleFile] (initState ∅)).actions = 1
      ∧ (add_jsonl_files sampleCfg false (fun _ => false) [sampleFile] ∅
          0).total_errors = 0 := by decide

/-- C6 amended: in concurrent mode every per-item backend failure adds
exactly one to the error total of the returned stats; in sequential mode
per-item failures are not counted at all; in neither mode does a failure
abort the run — the stats are produced either way. -/
theorem claim6_failure_counting (cfg : Config α)
    (outcome : WriteOperation → Bool) (files : List (JFile α))
    (loaded : Finset String) (elapsed : ℚ) :
    (add_jsonl_files cfg true outcome files loaded elapsed).total_errors
        = (generate_actions cfg files (initState loaded)).total_errors
            + failCount outcome
                (generate_actions cfg files (initState loaded)).actions
      ∧ (add_jsonl_files cfg false outcome files loaded elapsed).total_errors
          = (generate_actions cfg files (initState loaded)).total_errors :=
  ⟨rfl, rfl⟩

/-- C7 counterexample: the claim promises every reported rate is a
guarded division (0 when elapsed is 0, never a fault), but the periodic
progress line's rate (builder.py:253) is unguarded: with interval 1 a
progress line fires at `total_records = 1`, and at `elapsed = 0` its rate
computation raises `ZeroDivisionError` (modelled `none`) instead of
yielding 0. -/
theorem claim7_counterexample :
    (generate_actions intervalOneCfg [sampleFile] (initState ∅)).reports
        = [1]
      ∧ progressLineRate 1 0 = none
      ∧ progressLineRate 1 0 ≠ some 0 := by decide

/-- C7 amended: the final stats rate is the guarded division — records
over elapsed when elapsed is positive, 0 when elapsed is 0, never a
fault — and the periodic progress-line rate equals records over elapsed
whenever elapsed is positive, but its computation is unguarded and faults
when elapsed is exactly 0. -/
theorem claim7_rate_computation {α : Type} (n : Nat) (e : ℚ) (he : 0 < e) :
    progressLineRate n e = some ((n : ℚ) / e)
      ∧ progressLineRate n 0 = none
      ∧ rate_per_second n e = (n : ℚ) / e
      ∧ rate_per_second n 0 = 0
      ∧ ∀ (cfg : Config α) (parallel : Bool)
          (outcome : WriteOperation → Bool) (files : List (JFile α))
          (loaded : Finset String),
          (add_jsonl_files cfg parallel outcome files loaded
              e).rate_per_second
            = rate_per_second
                (generate_actions cfg files
                  (initState loaded)).total_records e := by
  refine ⟨?_, ?_, ?_, ?_, ?_⟩
  · rw [progressLineRate, if_neg he.ne']
  · rw [progressLineRate, if_pos rfl]
  · rw [rate_per_second, if_pos he]
  · rw [rate_per_second, if_neg (lt_irrefl 0)]
  · intro cfg parallel outcome files loaded
    rfl

/-- Witness for C7: the spec's own numbers — 1000 records in 10 seconds
give rate 100; 1000 records in 0 seconds give final-stats rate 0. -/
theorem claim7_witness :
    progressLineRate 1000 10 = some 100
      ∧ progressLineRate 1000 0 = none
      ∧ rate_per_second 1000 10 = 100
      ∧ rate_per_second 1000 0 = 0 := by
  have h := claim7_rate_computation (α := Unit) 1000 10 (by norm_num)
  refine ⟨?_, h.2.1, ?_, h.2.2.2.1⟩
  · rw [h.1]; norm_num
  · rw [h.2.2.1]; norm_num

/-- C8: loading progress is total over every backend outcome — a valid
persisted record yields exactly the persisted set (the save/load round
trip is the identity), and a missing, unreadable or corrupt record
degrades to the empty set. -/
theorem claim8_load_progress_total :
    (∀ s : Finset String, load_progress (save_progress s) = s)
      ∧ load_progress LoadOutcome.failure = ∅
      ∧ ∀ l : List String,
          load_progress (LoadOutcome.ok l) = l.toFinset := by
  refine ⟨fun s => ?_, rfl, fun l => rfl⟩
  show (Finset.sort (fun a b => a ≤ b) s).toFinset = s
  exact Finset.sort_toFinset _ s

/-- C9 counterexample: the claim promises discovery of exactly the files
matching the pattern for every glob pattern, but a wildcard in a
directory segment (here `data/*/x.jsonl`) is compared literally by the
code (builder.py:208-210), so the matching file `data/a/x.jsonl` is not
discovered. -/
theorem claim9_counterexample :
    specGlobMatch ["data", "*", "x.jsonl"] ["data", "a", "x.jsonl"] = true
      ∧ discoveredFiles ["data", "*", "x.jsonl"]
          [["data", "a", "x.jsonl"]] = [] := by decide

/-- C9 amended: for a non-recursive pattern, discovery returns exactly
the existing files whose parent directory equals the pattern's parent
literally and whose final name matches the final glob segment, in
lexicographic order; when nothing qualifies the result is the empty
sequence (not an error).  Patterns with wildcards only in the final
segment therefore get exactly the matching files, but wildcards in
directory segments are not expanded. -/
theorem claim9_discovery (pattern : List String)
    (fs : List (List String)) :
    (∀ p, p ∈ discoveredFiles pattern fs ↔
        p ∈ fs ∧ parentOf p = parentOf pattern
          ∧ segMatch (nameOf pattern).toList (nameOf p).toList = true)
      ∧ (discoveredFiles pattern fs).Sorted (fun a b => a ≤ b)
      ∧ ((∀ p, p ∈ fs → ¬(parentOf p = parentOf pattern
            ∧ segMatch (nameOf pattern).toList (nameOf p).toList = true)) →
          discoveredFiles pattern fs = []) := by
  have hperm := List.perm_insertionSort
    (fun a b : List String => a ≤ b)
    (fs.filter (fun p =>
      parentOf p == parentOf pattern
        && segMatch (nameOf pattern).toList (nameOf p).toList))
  have hiff : ∀ p, p ∈ discoveredFiles pattern fs ↔
      p ∈ fs ∧ parentOf p = parentOf pattern
        ∧ segMatch (nameOf pattern).toList (nameOf p).toList = true := by
    intro p
    rw [discoveredFiles, hperm.mem_iff, List.mem_filter]
    simp [Bool.and_eq_true, and_assoc]
  refine ⟨hiff, List.sorted_insertionSort _ _, ?_⟩
  intro hall
  cases hd : discoveredFiles pattern fs with
  | nil => rfl
  | cons q qs =>
    have hq : q ∈ discoveredFiles pattern fs := by
      rw [hd]; exact List.mem_cons_self q qs
    have hm := (hiff q).mp hq
    exact absurd ⟨hm.2.1, hm.2.2⟩ (hall q hm.1)

/-- Witness for C9: with the wildcard in the final segment, the matching
file is discovered, the non-matching one is not, and an all-non-matching
filesystem yields the empty sequence. -/
theorem claim9_witness :
    (["data", "b.jsonl"] ∈ discoveredFiles ["data", "*.jsonl"]
        [["data", "b.jsonl"], ["data", "c.txt"]])
      ∧ (["data", "c.txt"] ∉ discoveredFiles ["data", "*.jsonl"]
          [["data", "b.jsonl"], ["data", "c.txt"]])
      ∧ discoveredFiles ["data", "*.jsonl"] [["data", "c.txt"]] = [] := by
  have h := claim9_discovery ["data", "*.jsonl"]
      [["data", "b.jsonl"], ["data", "c.txt"]]
  have h2 := claim9_discovery ["data", "*.jsonl"] [["data", "c.txt"]]
  refine ⟨?_, ?_, ?_⟩
  · exact (h.1 _).mpr ⟨by decide, by decide, by decide⟩
  · intro hc
    have hm := (h.1 _).mp hc
    exact absurd hm.2.2 (by decide)
  · refine h2.2.2 ?_
    intro p hp
    have hp2 := List.mem_singleton.mp hp
    subst hp2
    decide

/-- C10: the `files_processed` statistic equals the cardinality of the
entire processed-file set at run end; that set contains every path loaded
at builder construction, so the statistic counts previously recorded
files too, not only the files completed during this invocation. -/
theorem claim10_files_processed (cfg : Config α) (parallel : Bool)
    (outcome : WriteOperation → Bool) (files : List (JFile α))
    (loaded : Finset String) (elapsed : ℚ) :
    (add_jsonl_files cfg parallel outcome files loaded
        elapsed).files_processed
        = (generate_actions cfg files (initState loaded)).processed_files.card
      ∧ loaded ⊆ (generate_actions cfg files (initState loaded)).processed_files
      ∧ loaded.card
          ≤ (add_jsonl_files cfg parallel outcome files loaded
              elapsed).files_processed := by
  refine ⟨rfl, run_mono cfg files (initState loaded), ?_⟩
  exact Finset.card_le_card (run_mono cfg files (initState loaded))
